import Mathlib

/-!
Verification of the qupled dielectric-solver sources against their
specification.  The C sources (stls solver, chemical potential, grids,
static structure factor, local-field correction, binary restart files)
and the C++ sources (`Rpa`, `Ssf`, `SsfHF` classes, the dynamic
QSTLS-IET fixed-kernel cache) are shallowly embedded over the real
numbers; floating-point arithmetic is modelled by exact real
arithmetic.
-/

open Real Filter Topology

noncomputable section

namespace Qupled

/-- The constant `lambda = pow(4.0/(9.0*M_PI), 1.0/3.0)` used throughout the source. -/
def lambda : ℝ := (4 / (9 * Real.pi)) ^ ((1 : ℝ) / 3)

/-- Function `idx2` from the C source: flat index of a 2-D array, `(yy * x_size) + xx`. -/
def idx2 (xx yy x_size : ℕ) : ℕ := yy * x_size + xx

/-- Function `compute_ssf` from the C source: the static structure factor of the
dielectric scheme, one entry per wave-vector index `ii`. -/
def compute_ssf (nx nl : ℕ) (Theta rs : ℝ) (SSHF GG phi xx : ℕ → ℝ) : ℕ → ℝ :=
  fun ii =>
    let pilambda := Real.pi * lambda
    let ff := 4 * lambda * lambda * rs
    let ff3_2T := 3 * Theta * ff / 2
    let xx2 := xx ii * xx ii
    if 0 < xx ii then
      SSHF ii - ff3_2T * (1 - GG ii) *
        ∑ ll ∈ Finset.range nl,
          (let phixl := phi (idx2 ii ll nx)
           let BB_tmp := phixl * phixl / (pilambda * xx2 + ff * (1 - GG ii) * phixl)
           if 0 < ll then 2 * BB_tmp else BB_tmp)
    else 0

/-- Method `Ssf::get` from the C++ source (finite temperature, any scheme). -/
def Ssf_get (x Theta rs ssfHF slfc : ℝ) (nl : ℕ) (idr : ℕ → ℝ) : ℝ :=
  if rs = 0 then ssfHF
  else if x = 0 then 0
  else
    let fact1 := 4 * lambda * rs / Real.pi
    let x2 := x * x
    ssfHF - 1.5 * fact1 / x2 * Theta * (1 - slfc) *
      ∑ l ∈ Finset.range nl,
        (let fact3 := 1 + fact1 / x2 * (1 - slfc) * idr l
         let fact4 := idr l * idr l / fact3
         if 0 < l then 2 * fact4 else fact4)

/-- The static-structure-factor formula exactly as the spec writes it:
`S(x) = S_HF(x) − (3/2)·Θ·f·(1−G(x))·Σ_l w_l·φ(x,l)² / [π·λ·x² + f·(1−G(x))·φ(x,l)]`
with `λ=(4/9π)^{1/3}`, `f=4λ²·rs`, `w_0=1`, `w_{l>0}=2`. -/
def ssf_spec (x Theta rs S_HF G : ℝ) (nl : ℕ) (phi : ℕ → ℝ) : ℝ :=
  let lam := (4 / (9 * Real.pi)) ^ ((1 : ℝ) / 3)
  let f := 4 * lam ^ 2 * rs
  S_HF - 3 / 2 * Theta * f * (1 - G) *
    ∑ l ∈ Finset.range nl,
      (if l = 0 then (1 : ℝ) else 2) * (phi l) ^ 2 /
        (Real.pi * lam * x ^ 2 + f * (1 - G) * phi l)

/-- Function `slfc` from the C source: the closed-form kernel of the STLS closure,
split on `x ≷ y`, with the `x = y` branch written as in the code. -/
def slfc (yy xx SS : ℝ) : ℝ :=
  let yy2 := yy * yy
  let xx2 := xx * xx
  if 0 < xx ∧ 0 < yy then
    if yy < xx then
      -3 / 4 * yy2 * (SS - 1) * (1 + (xx2 - yy2) / (2 * xx * yy) * Real.log ((xx + yy) / (xx - yy)))
    else if xx < yy then
      -3 / 4 * yy2 * (SS - 1) * (1 + (xx2 - yy2) / (2 * xx * yy) * Real.log ((xx + yy) / (yy - xx)))
    else yy2 * (SS - 1)
  else 0

/-- Function `compute_slfc` from the C source: midpoint-rule integral of the `slfc`
kernel over the wave-vector grid. -/
def compute_slfc (nx : ℕ) (dx : ℝ) (SS xx : ℕ → ℝ) : ℕ → ℝ :=
  fun ii => dx * ∑ jj ∈ Finset.range (nx - 1), slfc (xx jj) (xx ii) (SS jj)

/-- Method `Rpa::computeSlfc` from the C++ source: the RPA local-field correction,
every entry set to zero. -/
def Rpa_computeSlfc : ℕ → ℝ := fun _ => 0

/-- The mutable state of the `solve_stls` iteration: the arrays `GG`
(the mixed local-field correction), `GG_new`, `SS`, together with the
diagnostic residual `iter_err` and the iteration counter. -/
structure StlsState where
  GG : ℕ → ℝ
  GG_new : ℕ → ℝ
  SS : ℕ → ℝ
  iter_err : ℝ
  iter_counter : ℕ

/-- The fixed data of one `solve_stls` run: grid, state point, mixing and
stopping parameters, and the precomputed `SSHF` and `phi` arrays. -/
structure StlsParams where
  nx : ℕ
  nl : ℕ
  dx : ℝ
  Theta : ℝ
  rs : ℝ
  a_mix : ℝ
  err_min_iter : ℝ
  nIter : ℕ
  SSHF : ℕ → ℝ
  phi : ℕ → ℝ
  xx : ℕ → ℝ

/-- One pass of the `solve_stls` while-loop body: update `GG_new` from `SS`,
form the residual against the pre-mixing `GG`, mix, recompute `SS`, and
advance the iteration counter. -/
def stlsStep (P : StlsParams) (s : StlsState) : StlsState :=
  let GGnew := compute_slfc P.nx P.dx s.SS P.xx
  let err := Real.sqrt (∑ ii ∈ Finset.range P.nx, (GGnew ii - s.GG ii) * (GGnew ii - s.GG ii))
  let GGmix := fun ii => P.a_mix * GGnew ii + (1 - P.a_mix) * s.GG ii
  { GG := GGmix
    GG_new := GGnew
    SS := compute_ssf P.nx P.nl P.Theta P.rs P.SSHF GGmix P.phi P.xx
    iter_err := err
    iter_counter := s.iter_counter + 1 }

/-- The state of `solve_stls` just before the while-loop: `GG = 0`,
`GG_new = 1`, `SS` computed from the zero `GG`, `iter_err = 1.0`,
`iter_counter = 0`. -/
def stlsInit (P : StlsParams) : StlsState :=
  { GG := fun _ => 0
    GG_new := fun _ => 1
    SS := compute_ssf P.nx P.nl P.Theta P.rs P.SSHF (fun _ => 0) P.phi P.xx
    iter_err := 1
    iter_counter := 0 }

/-- The `solve_stls` while-loop, `while (iter_counter < nIter && iter_err >
err_min_iter)`, with the remaining iteration budget `nIter - iter_counter`
made explicit as the recursion fuel. -/
def stlsLoop (P : StlsParams) : ℕ → StlsState → StlsState
  | 0, s => s
  | k + 1, s => if P.err_min_iter < s.iter_err then stlsLoop P k (stlsStep P s) else s

/-- The full iterative part of `solve_stls`. -/
def solve_stls_iter (P : StlsParams) : StlsState :=
  stlsLoop P P.nIter (stlsInit P)

/-- Function `wave_vector_grid` from the C source: `xx[0] = dx/2`,
`xx[ii] = xx[ii-1] + dx`. -/
def wave_vector_grid (dx : ℝ) : ℕ → ℝ
  | 0 => dx / 2
  | ii + 1 => wave_vector_grid dx ii + dx

/-- Function `get_grid_size` from the C source: `in->nx = (int)floor(in->xmax/in->dx)`. -/
def get_grid_size (xmax dx : ℝ) : ℤ := ⌊xmax / dx⌋

/-- The loop body of the C++ `Rpa::buildWvGrid`:
`while (wvg.back() < xmax) wvg.push_back(wvg.back() + dx)`, with an explicit
fuel bound on the number of push-backs (the loop itself is unbounded). -/
def buildWvGridAux (dx xmax : ℝ) : ℕ → ℝ → List ℝ
  | 0, _ => []
  | fuel + 1, back =>
      if back < xmax then (back + dx) :: buildWvGridAux dx xmax fuel (back + dx) else []

/-- The C++ `Rpa::buildWvGrid`: starts from the single point `0.0` and extends
by `dx` while the last point is `< xmax`. -/
def buildWvGrid (dx xmax : ℝ) (fuel : ℕ) : List ℝ :=
  0 :: buildWvGridAux dx xmax fuel 0

/-- Function `ssfHF` from the C source: the Hartree-Fock static-structure-factor
integrand, with the `x = 0` limit branch written with `cosh`. -/
def ssfHF_C (y x Theta mu : ℝ) : ℝ :=
  let yy2 := y * y
  let ypx := y + x
  let ymx := y - x
  if 0 < x then
    -3 * Theta / (4 * x) * (y / (Real.exp (yy2 / Theta - mu) + 1)) *
      Real.log ((1 + Real.exp (mu - ymx * ymx / Theta)) /
        (1 + Real.exp (mu - ypx * ypx / Theta)))
  else -3 / 2 * yy2 / (1 + Real.cosh (yy2 / Theta - mu))

/-- Method `SsfHF::integrand` from the C++ source: the same integrand, with the
`x = 0` limit branch written with `exp`. -/
def SsfHF_integrand (y x Theta mu : ℝ) : ℝ :=
  let y2 := y * y
  let ypx := y + x
  let ymx := y - x
  if 0 < x then
    -3 * Theta / (4 * x) * (y / (Real.exp (y2 / Theta - mu) + 1)) *
      Real.log ((1 + Real.exp (mu - ymx * ymx / Theta)) /
        (1 + Real.exp (mu - ypx * ypx / Theta)))
  else -3 * y2 / ((1 + Real.exp (y2 / Theta - mu)) * (1 + Real.exp (y2 / Theta - mu)))

/-- Model of `gsl_sf_fermi_dirac_half`, the complete Fermi-Dirac integral `F_{1/2}`,
modelled by its defining integral (an external library routine; the solver
only evaluates it). -/
def fermi_dirac_half (mu : ℝ) : ℝ :=
  (1 / Real.Gamma (3 / 2)) * ∫ t in Set.Ioi (0 : ℝ), Real.sqrt t / (Real.exp (t - mu) + 1)

/-- Function `normalization_condition` from the C source:
`gsl_sf_gamma(1.5)*gsl_sf_fermi_dirac_half(mu) - 2.0/(3.0*pow(Theta, 3.0/2.0))`. -/
def normalization_condition (mu Theta : ℝ) : ℝ :=
  Real.Gamma 1.5 * fermi_dirac_half mu - 2 / (3 * Theta ^ ((3 : ℝ) / 2))

/-- The do-while loop of `compute_mu`.  In the source `int status, iter;`
declares `iter` without an initializer, and the loop executes `iter++` and
tests `status == GSL_CONTINUE && iter < max_iter` with `max_iter = 100`; the
indeterminate initial value of `iter` enters here as the starting value `i`,
and `stat n` tells whether the `gsl_root_test_interval` call of the `n`-th
pass returns `GSL_CONTINUE`.  The result counts how many times the loop body
runs. -/
def compute_mu_loop (stat : ℕ → Bool) (n : ℕ) (i : ℤ) : ℕ :=
  1 + (if stat (n + 1) = true ∧ i + 1 < 100 then compute_mu_loop stat (n + 1) (i + 1) else 0)
termination_by (100 - i).toNat
decreasing_by omega

/-- Number of passes of the `compute_mu` solver loop when the uninitialized
counter happens to start at `c`. -/
def compute_mu_iterations (stat : ℕ → Bool) (c : ℤ) : ℕ :=
  compute_mu_loop stat 0 c

/-- The `input` record (from `read_input.h`), with the fields the C sources
read and write; C `double`s become `ℝ`, C `int`s become `ℤ`, file names and
selectors become `String`s. -/
structure Input where
  theory : String
  mode : String
  Theta : ℝ
  rs : ℝ
  mu : ℝ
  mu_lo : ℝ
  mu_hi : ℝ
  dx : ℝ
  xmax : ℝ
  nx : ℤ
  nl : ℤ
  nW : ℤ
  nIter : ℤ
  err_min_iter : ℝ
  a_mix : ℝ
  nThreads : ℤ
  iet_mapping : String
  phi_file : String
  stls_guess_file : String
  qstls_guess_file : String
  qstls_fixed_file : String
  qstls_iet_fixed_file : String
  qstls_iet_static : ℤ
  guess_file1 : String
  guess_file2 : String
  vs_drs : ℝ
  vs_dt : ℝ
  vs_alpha : ℝ
  vs_err_min_iter : ℝ
  vs_a_mix : ℝ
  vs_solve_csr : ℤ
  vs_thermo_file : String
  dyn_dW : ℝ
  dyn_Wmax : ℝ
  dyn_xtarget : ℝ
  dyn_adr_file : String

/-- The field assignments `read_bin` performs on the caller's record after
loading `in_load` from file and setting `in_load.mu = compute_mu(in_load)`.
`compute_mu` reads only the `Theta` field of its argument (its bracket
endpoints are the local constants `-10.0` and `10.0`, not the record's
`mu_lo`/`mu_hi`), so it enters as a function `muSolver` of `Theta`. -/
def read_bin_assign (muSolver : ℝ → ℝ) (cur loaded : Input) : Input :=
  { cur with
    Theta := loaded.Theta
    dx := loaded.dx
    xmax := loaded.xmax
    nx := loaded.nx
    nl := loaded.nl
    mu := muSolver loaded.Theta }

/-- Modelled from the spec: the `DBL_TOL` constant used by
`check_dynamic_qstls_iet` is defined in a header that is not among the
sources here; the spec gives the per-field tolerance `1e-15` absolute. -/
def DBL_TOL : ℝ := 1e-15

/-- The header of the dynamic QSTLS-IET fixed-kernel binary file, in the
order written by `write_fixed_dynamic_qstls_iet`: `nx`, `dx`, `xmax`, `nW`,
`dW`, `Wmax`, `Theta`, `rs`. -/
structure FixedHeader where
  nx : ℤ
  dx : ℝ
  xmax : ℝ
  nW : ℤ
  dW : ℝ
  Wmax : ℝ
  Theta : ℝ
  rs : ℝ

/-- A fixed-kernel binary file: its 8-item header followed by a flat stream
of doubles (the four `nx·nW` arrays, and whatever else the file contains). -/
structure FixedFile where
  header : FixedHeader
  body : List ℝ

/-- The fatal-error classes of `check_dynamic_qstls_iet` (spec taxonomy). -/
inductive CacheErr where
  | CACHE_INCOMPATIBLE
  | CACHE_TRUNCATED
deriving DecidableEq

/-- The grid/state-point consistency check of `check_dynamic_qstls_iet`:
integer fields must match exactly, double fields to within `DBL_TOL`. -/
def check_grid_ok (h : FixedHeader) (inp : Input) : Prop :=
  h.nx = inp.nx ∧ |h.dx - inp.dx| ≤ DBL_TOL ∧ |h.xmax - inp.xmax| ≤ DBL_TOL ∧
  h.nW = inp.nW ∧ |h.dW - inp.dyn_dW| ≤ DBL_TOL ∧ |h.Wmax - inp.dyn_Wmax| ≤ DBL_TOL ∧
  |h.Theta - inp.Theta| ≤ DBL_TOL ∧ |h.rs - inp.rs| ≤ DBL_TOL

/-- Function `write_fixed_dynamic_qstls_iet`: header from the current input, body the
four arrays `phi_re, phi_im, psi_re, psi_im` in order. -/
def write_fixed_dynamic_qstls_iet (inp : Input)
    (phi_re phi_im psi_re psi_im : List ℝ) : FixedFile :=
  { header := { nx := inp.nx, dx := inp.dx, xmax := inp.xmax, nW := inp.nW,
                dW := inp.dyn_dW, Wmax := inp.dyn_Wmax, Theta := inp.Theta, rs := inp.rs }
    body := phi_re ++ phi_im ++ psi_re ++ psi_im }

open Classical in
/-- Function `read_fixed_dynamic_qstls_iet`: check the header against the current
input (fatal mismatch otherwise), read four arrays of `nx_file·nW_file`
doubles counting the items actually obtained, require the full expected
count, and require end-of-file immediately after the fourth array. -/
def read_fixed_dynamic_qstls_iet (inp : Input) (f : FixedFile) :
    Except CacheErr (List ℝ × List ℝ × List ℝ × List ℝ) :=
  if ¬ check_grid_ok f.header inp then .error .CACHE_INCOMPATIBLE
  else
    let n := f.header.nx.toNat * f.header.nW.toNat
    let phi_re := f.body.take n
    let r2 := f.body.drop n
    let phi_im := r2.take n
    let r3 := r2.drop n
    let psi_re := r3.take n
    let r4 := r3.drop n
    let psi_im := r4.take n
    let rest := r4.drop n
    if 8 + phi_re.length + phi_im.length + psi_re.length + psi_im.length ≠ 4 * n + 8 then
      .error .CACHE_TRUNCATED
    else if rest ≠ [] then .error .CACHE_TRUNCATED
    else .ok (phi_re, phi_im, psi_re, psi_im)

/-- A concrete input record (the CLI defaults of `read_input.c`, with a
1-point wave-vector and frequency grid) used to instantiate witnesses. -/
def sampleInput : Input :=
  { theory := "STLS", mode := "static", Theta := 1, rs := 1, mu := 0,
    mu_lo := -10, mu_hi := 10, dx := 0.1, xmax := 20, nx := 1, nl := 128,
    nW := 1, nIter := 1000, err_min_iter := 1e-5, a_mix := 0.1, nThreads := 1,
    iet_mapping := "standard", phi_file := "NO_FILE", stls_guess_file := "file",
    qstls_guess_file := "file", qstls_fixed_file := "file",
    qstls_iet_fixed_file := "file", qstls_iet_static := 0,
    guess_file1 := "file1", guess_file2 := "file2", vs_drs := 0.01,
    vs_dt := 0.01, vs_alpha := 0.5, vs_err_min_iter := 1e-3, vs_a_mix := 1,
    vs_solve_csr := 1, vs_thermo_file := "file", dyn_dW := 0.1,
    dyn_Wmax := 20, dyn_xtarget := 1, dyn_adr_file := "file" }

/-- A memory cell of the `malloc`ed fixed-kernel tensor: uninitialized,
holding the `INFINITY` sentinel, or holding a computed double. -/
inductive Cell where
  | uninit
  | inf
  | val (r : ℝ)

/-- Modelled from the spec: the `idx3(xx,yy,zz,x_size,y_size)` macro is
declared in a header that is not among these sources (only its call sites
are); per the spec it is the row-major flat index of 3-D data extending
`idx2`, with the third index slowest:
`idx3(xx,yy,zz,x_size,y_size) = zz·x_size·y_size + yy·x_size + xx`. -/
def idx3 (xx yy zz x_size y_size : ℕ) : ℕ :=
  zz * (x_size * y_size) + yy * x_size + xx

/-- One store into the flat tensor. -/
def updT (T : ℕ → Cell) (n : ℕ) (c : Cell) : ℕ → Cell :=
  fun m => if m = n then c else T m

/-- The `(ii, jj)` pairs in the order of the nested loops of
`compute_dynamic_adr_iet_pd` (`ii` outer over wave-vectors, `jj` inner over
frequencies). -/
def pdPairs (nx nW : ℕ) : List (ℕ × ℕ) :=
  List.product (List.range nx) (List.range nW)

/-- The initialization loop of `compute_dynamic_adr_iet_pd`: starting from
freshly `malloc`ed (uninitialized) memory of `nx·nW·nx` cells it stores
`INFINITY` at `idx2(ii,jj,nx)` for every pair — `idx2`, not `idx3`, so
exactly the first `nx·nW` flat cells are written, which are the `[0]`
entries of the `nx·nW` slots. -/
def pd_init_fixed (nx nW : ℕ) : ℕ → Cell :=
  (pdPairs nx nW).foldl (fun T p => updT T (idx2 p.1 p.2 nx) Cell.inf) (fun _ => Cell.uninit)

/-- Function `write_dynamic_adr_iet_fixed`: store the `nx` values `var[kk]` of slot
`(ii,jj)` at `idx3(ii,jj,kk,nx,nW)`. -/
def write_dynamic_adr_iet_fixed (nx nW : ℕ) (var : ℕ → ℝ) (ii jj : ℕ)
    (T : ℕ → Cell) : ℕ → Cell :=
  (List.range nx).foldl (fun T kk => updT T (idx3 ii jj kk nx nW) (Cell.val (var kk))) T

/-- The first `k` slot-writes of the first `compute_dynamic_adr_iet_re_lev1`
pass (the one that finds the sentinel in `psi_re_fixed[0]` and has
`compute_fixed` true).  The kernel values themselves come from the nested
adaptive quadratures and enter as the abstract `vals`; the invariant is
about the write discipline, which does not depend on them. -/
def pd_first_pass_upto (nx nW : ℕ) (vals : ℕ → ℕ → ℕ → ℝ) (k : ℕ) : ℕ → Cell :=
  ((pdPairs nx nW).take k).foldl
    (fun T p => write_dynamic_adr_iet_fixed nx nW (vals p.1 p.2) p.1 p.2 T)
    (pd_init_fixed nx nW)

/-- The complete first pass: every `(ii,jj)` slot written. -/
def pd_first_pass (nx nW : ℕ) (vals : ℕ → ℕ → ℕ → ℝ) : ℕ → Cell :=
  pd_first_pass_upto nx nW vals (pdPairs nx nW).length

/-- Slot `(ii,jj,*)` carries the sentinel: `INFINITY` in its entry `[0]`,
nothing written in the rest. -/
def slot_sentinel (nx nW : ℕ) (T : ℕ → Cell) (ii jj : ℕ) : Prop :=
  T (idx3 ii jj 0 nx nW) = Cell.inf ∧
  ∀ kk, 0 < kk → kk < nx → T (idx3 ii jj kk nx nW) = Cell.uninit

/-- Slot `(ii,jj,*)` is fully populated with computed values. -/
def slot_full (nx nW : ℕ) (T : ℕ → Cell) (ii jj : ℕ) : Prop :=
  ∀ kk < nx, ∃ r, T (idx3 ii jj kk nx nW) = Cell.val r

end Qupled

namespace Qupled

lemma lambda_pos : 0 < lambda := by
  have h9 : 0 < 9 * Real.pi := by positivity
  have : (0 : ℝ) < 4 / (9 * Real.pi) := by positivity
  exact Real.rpow_pos_of_pos this _

lemma pi_lambda_ne_zero : Real.pi * lambda ≠ 0 :=
  ne_of_gt (mul_pos Real.pi_pos lambda_pos)

/-- C1: for `Theta > 0` and a grid point `x[i] > 0` the C `compute_ssf` equals the
spec's formula, and the C++ `Ssf::get` (which divides numerator and denominator
of each summand by `π·λ·x²`) computes the same value; for `x[i] ≤ 0` the C code
returns `0`. -/
theorem ssf_c_matches_spec_and_cpp
    (nx nl : ℕ) (ii : ℕ) (Theta rs : ℝ) (SSHF GG phi xx : ℕ → ℝ)
    (hT : 0 < Theta) :
    (0 < xx ii →
      compute_ssf nx nl Theta rs SSHF GG phi xx ii =
        ssf_spec (xx ii) Theta rs (SSHF ii) (GG ii) nl (fun l => phi (idx2 ii l nx)) ∧
      Ssf_get (xx ii) Theta rs (SSHF ii) (GG ii) nl (fun l => phi (idx2 ii l nx)) =
        compute_ssf nx nl Theta rs SSHF GG phi xx ii) ∧
    (xx ii ≤ 0 → compute_ssf nx nl Theta rs SSHF GG phi xx ii = 0) := by
  constructor
  · intro hx
    have hxne : xx ii ≠ 0 := ne_of_gt hx
    have hpi : Real.pi ≠ 0 := ne_of_gt Real.pi_pos
    have hlam : lambda ≠ 0 := ne_of_gt lambda_pos
    constructor
    · -- C form versus the spec formula
      simp only [compute_ssf, ssf_spec, if_pos hx]
      rw [show (4 / (9 * Real.pi)) ^ ((1 : ℝ) / 3) = lambda from rfl]
      congr 1
      rw [Finset.mul_sum, Finset.mul_sum]
      refine Finset.sum_congr rfl ?_
      intro l _
      rcases Nat.eq_zero_or_pos l with hl | hl
      · subst hl
        rw [if_neg (lt_irrefl 0), if_pos rfl]
        ring
      · rw [if_pos hl, if_neg (Nat.pos_iff_ne_zero.mp hl)]
        ring
    · -- C++ form versus the C form
      rcases eq_or_ne rs 0 with hrs | hrs
      · subst hrs
        simp only [Ssf_get, compute_ssf, if_pos hx, if_pos (Eq.refl (0 : ℝ)), if_true]
        ring_nf
      · have hx0 : xx ii ≠ 0 := hxne
        simp only [Ssf_get, if_neg hrs, if_neg hx0, compute_ssf, if_pos hx]
        congr 1
        rw [Finset.mul_sum, Finset.mul_sum]
        refine Finset.sum_congr rfl ?_
        intro l _
        set φ := phi (idx2 ii l nx) with hφ
        have hden :
            1 + 4 * lambda * rs / Real.pi / (xx ii * xx ii) * (1 - GG ii) * φ =
            (Real.pi * lambda * (xx ii * xx ii) + 4 * lambda * lambda * rs * (1 - GG ii) * φ) /
              (Real.pi * lambda * (xx ii * xx ii)) := by
          field_simp
          ring
        have hc :
            1.5 * (4 * lambda * rs / Real.pi) / (xx ii * xx ii) * Theta * (1 - GG ii) *
              (Real.pi * lambda * (xx ii * xx ii)) =
            3 * Theta * (4 * lambda * lambda * rs) / 2 * (1 - GG ii) := by
          field_simp
          ring
        have key :
            1.5 * (4 * lambda * rs / Real.pi) / (xx ii * xx ii) * Theta * (1 - GG ii) *
              (φ * φ / (1 + 4 * lambda * rs / Real.pi / (xx ii * xx ii) * (1 - GG ii) * φ)) =
            3 * Theta * (4 * lambda * lambda * rs) / 2 * (1 - GG ii) *
              (φ * φ /
                (Real.pi * lambda * (xx ii * xx ii) + 4 * lambda * lambda * rs * (1 - GG ii) * φ)) := by
          rw [hden, div_div_eq_mul_div, ← hc]
          ring
        rcases Nat.eq_zero_or_pos l with hl | hl
        · subst hl
          rw [if_neg (lt_irrefl 0), if_neg (lt_irrefl 0)]
          exact key
        · rw [if_pos hl, if_pos hl]
          calc 1.5 * (4 * lambda * rs / Real.pi) / (xx ii * xx ii) * Theta * (1 - GG ii) *
                (2 * (φ * φ / (1 + 4 * lambda * rs / Real.pi / (xx ii * xx ii) * (1 - GG ii) * φ))) =
              2 * (1.5 * (4 * lambda * rs / Real.pi) / (xx ii * xx ii) * Theta * (1 - GG ii) *
                (φ * φ / (1 + 4 * lambda * rs / Real.pi / (xx ii * xx ii) * (1 - GG ii) * φ))) := by
                ring
            _ = 2 * (3 * Theta * (4 * lambda * lambda * rs) / 2 * (1 - GG ii) *
                (φ * φ /
                  (Real.pi * lambda * (xx ii * xx ii) + 4 * lambda * lambda * rs * (1 - GG ii) * φ))) := by
                rw [key]
            _ = 3 * Theta * (4 * lambda * lambda * rs) / 2 * (1 - GG ii) *
                (2 * (φ * φ /
                  (Real.pi * lambda * (xx ii * xx ii) + 4 * lambda * lambda * rs * (1 - GG ii) * φ))) := by
                ring
  · intro hx
    have : ¬ 0 < xx ii := not_lt.mpr hx
    simp [compute_ssf, this]

lemma stlsStep_counter (P : StlsParams) (s : StlsState) (k : ℕ) :
    ((stlsStep P)^[k] s).iter_counter = s.iter_counter + k := by
  induction k generalizing s with
  | zero => simp
  | succ k ih =>
    rw [Function.iterate_succ_apply, ih]
    simp [stlsStep]
    omega

lemma stlsLoop_char (P : StlsParams) :
    ∀ (k : ℕ) (s : StlsState),
      ∃ j, j ≤ k ∧ stlsLoop P k s = (stlsStep P)^[j] s ∧
        (∀ i < j, P.err_min_iter < ((stlsStep P)^[i] s).iter_err) ∧
        (j = k ∨ ((stlsStep P)^[j] s).iter_err ≤ P.err_min_iter) := by
  intro k
  induction k with
  | zero =>
    intro s
    exact ⟨0, le_refl 0, rfl, fun i hi => absurd hi (Nat.not_lt_zero i), Or.inl rfl⟩
  | succ k ih =>
    intro s
    by_cases hc : P.err_min_iter < s.iter_err
    · obtain ⟨j, hj, hloop, hbefore, hstop⟩ := ih (stlsStep P s)
      refine ⟨j + 1, Nat.succ_le_succ hj, ?_, ?_, ?_⟩
      · rw [stlsLoop, if_pos hc, hloop, Function.iterate_succ_apply]
      · intro i hi
        cases i with
        | zero => simpa using hc
        | succ i =>
          rw [Function.iterate_succ_apply]
          exact hbefore i (Nat.lt_of_succ_lt_succ hi)
      · rcases hstop with h | h
        · exact Or.inl (by omega)
        · exact Or.inr (by rwa [Function.iterate_succ_apply])
    · refine ⟨0, Nat.zero_le _, ?_, fun i hi => absurd hi (Nat.not_lt_zero i), ?_⟩
      · rw [stlsLoop, if_neg hc, Function.iterate_zero_apply]
      · exact Or.inr (by simpa using not_lt.mp hc)

/-- C2: the STLS fixed-point driver starts from `G = 0`, `G_new = 1` and `S`
computed from that `G`; each pass computes `G_new` from the current `S`, takes
the residual against the pre-mixing `G`, mixes with `a_mix`, recomputes `S`,
and increments the counter; the loop runs `k ≤ nIter` passes, all earlier
residuals exceeded `err_min_iter`, and it stops exactly because the residual
dropped to `≤ err_min_iter` or `nIter` passes completed (none when
`nIter = 0`). -/
theorem stls_driver_characterization (P : StlsParams) :
    ((∀ i, (stlsInit P).GG i = 0) ∧ (∀ i, (stlsInit P).GG_new i = 1) ∧
      (stlsInit P).SS = compute_ssf P.nx P.nl P.Theta P.rs P.SSHF (fun _ => 0) P.phi P.xx) ∧
    (∀ s : StlsState,
      (stlsStep P s).GG_new = compute_slfc P.nx P.dx s.SS P.xx ∧
      (stlsStep P s).iter_err =
        Real.sqrt (∑ ii ∈ Finset.range P.nx,
          (compute_slfc P.nx P.dx s.SS P.xx ii - s.GG ii) *
            (compute_slfc P.nx P.dx s.SS P.xx ii - s.GG ii)) ∧
      (∀ i, (stlsStep P s).GG i =
        P.a_mix * compute_slfc P.nx P.dx s.SS P.xx i + (1 - P.a_mix) * s.GG i) ∧
      (stlsStep P s).SS =
        compute_ssf P.nx P.nl P.Theta P.rs P.SSHF (stlsStep P s).GG P.phi P.xx ∧
      (stlsStep P s).iter_counter = s.iter_counter + 1) ∧
    (∃ k, k ≤ P.nIter ∧ solve_stls_iter P = (stlsStep P)^[k] (stlsInit P) ∧
      (solve_stls_iter P).iter_counter = k ∧
      (∀ j < k, P.err_min_iter < ((stlsStep P)^[j] (stlsInit P)).iter_err) ∧
      (k = P.nIter ∨ ((stlsStep P)^[k] (stlsInit P)).iter_err ≤ P.err_min_iter) ∧
      (P.nIter = 0 → k = 0)) := by
  refine ⟨⟨fun i => rfl, fun i => rfl, rfl⟩, fun s => ⟨rfl, rfl, fun i => rfl, rfl, rfl⟩, ?_⟩
  obtain ⟨k, hk, hloop, hbefore, hstop⟩ := stlsLoop_char P P.nIter (stlsInit P)
  refine ⟨k, hk, hloop, ?_, hbefore, hstop, fun h0 => by omega⟩
  rw [solve_stls_iter, hloop, stlsStep_counter]
  simp [stlsInit]

/-- C4 (amended): the C grid (`get_grid_size` + `wave_vector_grid`) is
cell-centered: `x[i] = (i+1/2)·dx`, `x[0] = dx/2`, consecutive points differ
by `dx`, every point is strictly positive, and `N = ⌊xmax/dx⌋ ≥ 1`; the C++
`Rpa::buildWvGrid` builds a different, node-centered grid (see the
counterexample). -/
theorem wave_vector_grid_cell_centered (dx xmax : ℝ) (hdx : 0 < dx) (hx : dx < xmax) :
    (∀ i : ℕ, wave_vector_grid dx i = ((i : ℝ) + 1 / 2) * dx) ∧
    (∀ i : ℕ, 0 < wave_vector_grid dx i) ∧
    (∀ i : ℕ, wave_vector_grid dx (i + 1) - wave_vector_grid dx i = dx) ∧
    wave_vector_grid dx 0 = dx / 2 ∧
    1 ≤ get_grid_size xmax dx := by
  have hform : ∀ i : ℕ, wave_vector_grid dx i = ((i : ℝ) + 1 / 2) * dx := by
    intro i
    induction i with
    | zero => simp [wave_vector_grid]; ring
    | succ i ih =>
      rw [wave_vector_grid, ih]
      push_cast
      ring
  refine ⟨hform, ?_, ?_, rfl, ?_⟩
  · intro i
    rw [hform]
    have : (0 : ℝ) ≤ (i : ℝ) := Nat.cast_nonneg i
    nlinarith
  · intro i
    rw [wave_vector_grid]
    ring
  · rw [get_grid_size, Int.le_floor]
    have : (1 : ℝ) ≤ xmax / dx := (one_le_div hdx).mpr (le_of_lt hx)
    simpa using this

/-- Witness for C4 at `dx = 1`, `xmax = 2`. -/
theorem wave_vector_grid_cell_centered_witness :
    (0 : ℝ) < 1 ∧ (1 : ℝ) < 2 ∧ wave_vector_grid (1 : ℝ) 0 = 1 / 2 :=
  ⟨by norm_num, by norm_num,
   (wave_vector_grid_cell_centered 1 2 (by norm_num) (by norm_num)).2.2.2.1⟩

/-- Counterexample to C4 as stated: at `dx = 1 > 0`, `xmax = 2 > dx` the C++
`Rpa::buildWvGrid` produces `[0, 1, 2]` — three points, the first of which is
`0`, not the two strictly positive cell-centered points `(i+1/2)·dx` that
`N = ⌊xmax/dx⌋ = 2` would give. -/
theorem buildWvGrid_zero_start :
    (0 : ℝ) < 1 ∧ (1 : ℝ) < 2 ∧
    buildWvGrid 1 2 3 = [0, 1, 2] ∧
    (buildWvGrid 1 2 3).length = 3 ∧
    get_grid_size (2 : ℝ) 1 = 2 ∧
    (buildWvGrid 1 2 3).head? = some 0 ∧
    (0 : ℝ) ≠ ((0 : ℝ) + 1 / 2) * 1 := by
  have hgrid : buildWvGrid (1 : ℝ) 2 3 = [0, 1, 2] := by
    norm_num [buildWvGrid, buildWvGridAux]
  refine ⟨by norm_num, by norm_num, hgrid, by rw [hgrid]; rfl, ?_, by rw [hgrid]; rfl,
    by norm_num⟩
  rw [get_grid_size]
  norm_num

/-- Witness for C1 at `nx = nl = 1`, `Theta = rs = 1`, `x = 1`, `phi ≡ 1`. -/
theorem ssf_c_matches_spec_and_cpp_witness :
    (0 : ℝ) < 1 ∧
    compute_ssf 1 1 1 1 (fun _ => 0) (fun _ => 0) (fun _ => 1) (fun _ => 1) 0 =
      ssf_spec 1 1 1 0 0 1 (fun _ => 1) :=
  ⟨by norm_num,
   ((ssf_c_matches_spec_and_cpp 1 1 0 1 1 (fun _ => 0) (fun _ => 0) (fun _ => 1)
      (fun _ => 1) (by norm_num)).1 (by norm_num)).1⟩


lemma slfc_tendsto_diag (y S : ℝ) (hy : 0 < y) :
    Filter.Tendsto (fun x => slfc y x S) (nhdsWithin y (Set.Ioi y))
      (nhds (-3 / 4 * (y * y) * (S - 1))) := by
  have hy2 : (2 : ℝ) * y * y ≠ 0 := by positivity
  -- the logarithmic factor of the `x > y` branch tends to 0
  have hA : Filter.Tendsto (fun x : ℝ => (x - y) * Real.log (x - y)) (nhds y) (nhds 0) := by
    have hc : Continuous fun x : ℝ => (x - y) * Real.log (x - y) :=
      Real.continuous_mul_log.comp (continuous_id.sub continuous_const)
    have := hc.tendsto y
    simpa using this
  have hB : Filter.Tendsto (fun x : ℝ => (x + y) / (2 * x * y)) (nhds y)
      (nhds ((y + y) / (2 * y * y))) := by
    apply Filter.Tendsto.div
    · exact (continuous_id.add continuous_const).tendsto y
    · exact ((continuous_const.mul continuous_id).mul continuous_const).tendsto y
    · exact hy2
  have hterm2 : Filter.Tendsto
      (fun x : ℝ => (x + y) / (2 * x * y) * ((x - y) * Real.log (x - y))) (nhds y) (nhds 0) := by
    have := hB.mul hA
    simpa using this
  have hterm1 : Filter.Tendsto
      (fun x : ℝ => (x * x - y * y) / (2 * x * y) * Real.log (x + y)) (nhds y) (nhds 0) := by
    have hnum : Filter.Tendsto (fun x : ℝ => (x * x - y * y) / (2 * x * y)) (nhds y)
        (nhds ((y * y - y * y) / (2 * y * y))) := by
      apply Filter.Tendsto.div
      · exact ((continuous_id.mul continuous_id).sub continuous_const).tendsto y
      · exact ((continuous_const.mul continuous_id).mul continuous_const).tendsto y
      · exact hy2
    have hlog : Filter.Tendsto (fun x : ℝ => Real.log (x + y)) (nhds y)
        (nhds (Real.log (y + y))) := by
      have h2y : y + y ≠ 0 := by positivity
      exact (Real.continuousAt_log h2y).tendsto.comp
        ((continuous_id.add continuous_const).tendsto y)
    have := hnum.mul hlog
    simpa using this
  have hg : Filter.Tendsto
      (fun x : ℝ => (x * x - y * y) / (2 * x * y) * Real.log (x + y) -
        (x + y) / (2 * x * y) * ((x - y) * Real.log (x - y))) (nhds y) (nhds 0) := by
    have := hterm1.sub hterm2
    simpa using this
  have hwhole : Filter.Tendsto
      (fun x : ℝ => -3 / 4 * (y * y) * (S - 1) *
        (1 + ((x * x - y * y) / (2 * x * y) * Real.log (x + y) -
          (x + y) / (2 * x * y) * ((x - y) * Real.log (x - y)))))
      (nhds y) (nhds (-3 / 4 * (y * y) * (S - 1))) := by
    have h1 : Filter.Tendsto
        (fun x : ℝ => 1 + ((x * x - y * y) / (2 * x * y) * Real.log (x + y) -
          (x + y) / (2 * x * y) * ((x - y) * Real.log (x - y)))) (nhds y) (nhds 1) := by
      have := (tendsto_const_nhds (x := (1 : ℝ)) (f := nhds y)).add hg
      simpa using this
    have := h1.const_mul (-3 / 4 * (y * y) * (S - 1))
    simpa [mul_comm] using this
  refine Filter.Tendsto.congr' ?_ (hwhole.mono_left nhdsWithin_le_nhds)
  filter_upwards [self_mem_nhdsWithin] with x hx
  have hxy : y < x := hx
  have hx0 : 0 < x := lt_trans hy hxy
  have hxmy : 0 < x - y := sub_pos.mpr hxy
  have hxpy : 0 < x + y := by linarith
  rw [slfc]
  simp only [if_pos (And.intro hx0 hy), if_pos hxy]
  rw [Real.log_div (ne_of_gt hxpy) (ne_of_gt hxmy)]
  ring

/-- C7: the analytic limit of the `x > y` branch of `slfc` as `x → y⁺` is
`-(3/4)·y²·(S-1)` (shown here at `y = 1`, `S = 0`, where it equals `3/4`),
but the code's `x = y` branch returns `y²·(S-1)` (here `-1`): the kernel does
not take its analytic limit on the diagonal. -/
theorem slfc_diag_misses_limit :
    Filter.Tendsto (fun x => slfc 1 x 0) (nhdsWithin 1 (Set.Ioi 1)) (nhds (3 / 4)) ∧
    slfc 1 1 0 = -1 ∧ ((3 : ℝ) / 4) ≠ -1 := by
  refine ⟨?_, ?_, by norm_num⟩
  · have := slfc_tendsto_diag 1 0 (by norm_num)
    norm_num at this
    exact this
  · rw [slfc]
    norm_num

/-- C8 (amended): the RPA closure writes `G[i] = 0` for every `i`, and the
STLS kernel vanishes at `x = 0`, so `G[0] = 0` whenever the first grid point
is `0` (the C++ node-centered grid); on the cell-centered C grid the first
point is `dx/2 > 0` and `G[0]` is generally nonzero (see the
counterexample). -/
theorem slfc_zero_at_origin :
    (∀ i, Rpa_computeSlfc i = 0) ∧
    (∀ y S : ℝ, slfc y 0 S = 0) ∧
    (∀ (nx : ℕ) (dx : ℝ) (SS xx : ℕ → ℝ), xx 0 = 0 → compute_slfc nx dx SS xx 0 = 0) := by
  refine ⟨fun i => rfl, ?_, ?_⟩
  · intro y S
    rw [slfc]
    simp
  · intro nx dx SS xx h0
    rw [compute_slfc, h0]
    have : ∀ jj ∈ Finset.range (nx - 1), slfc (xx jj) 0 (SS jj) = 0 := by
      intro jj _
      rw [slfc]
      simp
    rw [Finset.sum_congr rfl this]
    simp

/-- Witness for C8 at the grid `xx = fun i => i` (first point `0`). -/
theorem slfc_zero_at_origin_witness :
    ((fun i : ℕ => (i : ℝ)) 0 = 0) ∧ compute_slfc 2 1 (fun _ => 0) (fun i : ℕ => (i : ℝ)) 0 = 0 :=
  ⟨by norm_num, slfc_zero_at_origin.2.2 2 1 (fun _ => 0) (fun i : ℕ => (i : ℝ)) (by norm_num)⟩

/-- Counterexample to C8 as stated: on the cell-centered grid with `dx = 1`
(`x[0] = 1/2`), `nx = 2`, and the static structure factor `S ≡ 0`, the STLS
closure gives `G[0] = slfc(1/2, 1/2, 0) = -1/4 ≠ 0`. -/
theorem compute_slfc_first_point_nonzero :
    compute_slfc 2 1 (fun _ => 0) (wave_vector_grid 1) 0 = -(1 / 4) ∧ -(1 / 4) ≠ (0 : ℝ) := by
  constructor
  · have hw : wave_vector_grid (1 : ℝ) 0 = 1 / 2 := rfl
    rw [compute_slfc]
    norm_num [hw, slfc]
  · norm_num

lemma ssfHF_x0_relation (y Theta mu : ℝ) :
    ssfHF_C y 0 Theta mu =
      Real.exp (y * y / Theta - mu) * SsfHF_integrand y 0 Theta mu := by
  rw [ssfHF_C, SsfHF_integrand]
  simp only [if_neg (lt_irrefl (0 : ℝ))]
  set t := y * y / Theta - mu with ht
  have hch : 0 < 1 + Real.cosh t := by
    have := Real.cosh_pos (x := t)
    linarith
  have hex : 0 < 1 + Real.exp t := by positivity
  have hprod : Real.exp t * Real.exp (-t) = 1 := by
    rw [← Real.exp_add]
    simp
  rw [Real.cosh_eq]
  rw [Real.cosh_eq] at hch
  field_simp
  nlinarith [hprod, Real.exp_pos t, Real.exp_pos (-t)]

/-- C9 (amended): the `x > 0` branches of the C `ssfHF` and the C++
`SsfHF::integrand` are identical, but the `x = 0` branches differ by the
factor `exp(y²/Θ − μ)`; they agree at `x = 0` only where that factor is 1. -/
theorem ssfHF_c_vs_cpp (y x Theta mu : ℝ) :
    (0 < x → ssfHF_C y x Theta mu = SsfHF_integrand y x Theta mu) ∧
    ssfHF_C y 0 Theta mu =
      Real.exp (y * y / Theta - mu) * SsfHF_integrand y 0 Theta mu := by
  constructor
  · intro hx
    rw [ssfHF_C, SsfHF_integrand]
    simp only [if_pos hx]
  · exact ssfHF_x0_relation y Theta mu

/-- Counterexample to C9 as stated: at `y = 1`, `Theta = 1`, `mu = 0` the two
`x = 0` branches disagree (`-3/(2(1+cosh 1)) ≠ -3/(1+e)²`). -/
theorem ssfHF_c_ne_cpp_at_x0 :
    ssfHF_C 1 0 1 0 ≠ SsfHF_integrand 1 0 1 0 := by
  intro h
  have hrel := ssfHF_x0_relation 1 1 0
  rw [h] at hrel
  have hcppneg : SsfHF_integrand 1 0 1 0 < 0 := by
    rw [SsfHF_integrand]
    simp only [if_neg (lt_irrefl (0 : ℝ))]
    have hpos : 0 < (1 + Real.exp (1 * 1 / 1 - 0)) * (1 + Real.exp (1 * 1 / 1 - 0)) := by
      positivity
    apply div_neg_of_neg_of_pos _ hpos
    norm_num
  have hE : 1 < Real.exp (1 * 1 / 1 - 0) := by
    norm_num
  nlinarith [hrel, hcppneg, hE]


lemma compute_mu_loop_true :
    ∀ (k : ℕ) (n : ℕ) (i : ℤ), (100 - i).toNat = k →
      compute_mu_loop (fun _ => true) n i = max (100 - i).toNat 1 := by
  intro k
  induction k using Nat.strong_induction_on with
  | _ k ih =>
    intro n i hk
    rw [compute_mu_loop]
    by_cases hc : i + 1 < 100
    · rw [if_pos ⟨rfl, hc⟩]
      rw [ih ((100 - (i + 1)).toNat) (by omega) (n + 1) (i + 1) rfl]
      omega
    · rw [if_neg (by intro hand; exact hc hand.2)]
      omega

/-- C3: in `compute_mu` the iteration counter `iter` is read uninitialized
(`iter++` and `iter < max_iter` before any assignment).  Modelling its
indeterminate starting value as `c`, a run whose interval test keeps
returning `GSL_CONTINUE` executes 100 passes when `c = 0` (the documented
intent), but 101 passes when `c = -1` and a single pass when `c = 150`: the
at-most-100-iterations bound of the claim is not established by the code. -/
theorem compute_mu_uninitialized_counter :
    compute_mu_iterations (fun _ => true) 0 = 100 ∧
    compute_mu_iterations (fun _ => true) (-1) = 101 ∧
    compute_mu_iterations (fun _ => true) 150 = 1 := by
  refine ⟨?_, ?_, ?_⟩
  · rw [compute_mu_iterations, compute_mu_loop_true ((100 - (0 : ℤ)).toNat) 0 0 rfl]
    omega
  · rw [compute_mu_iterations, compute_mu_loop_true ((100 - (-1 : ℤ)).toNat) 0 (-1) rfl]
    omega
  · rw [compute_mu_iterations, compute_mu_loop_true ((100 - (150 : ℤ)).toNat) 0 150 rfl]
    omega

/-- C10: `read_bin` overwrites exactly `Theta`, `dx`, `xmax`, `nx`, `nl` and
`mu` on the caller's record; `mu` is recomputed from the loaded `Theta`
(a value depending on nothing else of the loaded record), and every other
field keeps its pre-call value. -/
theorem read_bin_frame (muSolver : ℝ → ℝ) (cur loaded : Input) :
    ((read_bin_assign muSolver cur loaded).Theta = loaded.Theta ∧
     (read_bin_assign muSolver cur loaded).dx = loaded.dx ∧
     (read_bin_assign muSolver cur loaded).xmax = loaded.xmax ∧
     (read_bin_assign muSolver cur loaded).nx = loaded.nx ∧
     (read_bin_assign muSolver cur loaded).nl = loaded.nl ∧
     (read_bin_assign muSolver cur loaded).mu = muSolver loaded.Theta) ∧
    (∀ loaded' : Input, loaded'.Theta = loaded.Theta →
      (read_bin_assign muSolver cur loaded').mu = (read_bin_assign muSolver cur loaded).mu) ∧
    ((read_bin_assign muSolver cur loaded).theory = cur.theory ∧
     (read_bin_assign muSolver cur loaded).mode = cur.mode ∧
     (read_bin_assign muSolver cur loaded).rs = cur.rs ∧
     (read_bin_assign muSolver cur loaded).mu_lo = cur.mu_lo ∧
     (read_bin_assign muSolver cur loaded).mu_hi = cur.mu_hi ∧
     (read_bin_assign muSolver cur loaded).nW = cur.nW ∧
     (read_bin_assign muSolver cur loaded).nIter = cur.nIter ∧
     (read_bin_assign muSolver cur loaded).err_min_iter = cur.err_min_iter ∧
     (read_bin_assign muSolver cur loaded).a_mix = cur.a_mix ∧
     (read_bin_assign muSolver cur loaded).nThreads = cur.nThreads ∧
     (read_bin_assign muSolver cur loaded).iet_mapping = cur.iet_mapping ∧
     (read_bin_assign muSolver cur loaded).phi_file = cur.phi_file ∧
     (read_bin_assign muSolver cur loaded).stls_guess_file = cur.stls_guess_file ∧
     (read_bin_assign muSolver cur loaded).qstls_guess_file = cur.qstls_guess_file ∧
     (read_bin_assign muSolver cur loaded).qstls_fixed_file = cur.qstls_fixed_file ∧
     (read_bin_assign muSolver cur loaded).qstls_iet_fixed_file = cur.qstls_iet_fixed_file ∧
     (read_bin_assign muSolver cur loaded).qstls_iet_static = cur.qstls_iet_static ∧
     (read_bin_assign muSolver cur loaded).guess_file1 = cur.guess_file1 ∧
     (read_bin_assign muSolver cur loaded).guess_file2 = cur.guess_file2 ∧
     (read_bin_assign muSolver cur loaded).vs_drs = cur.vs_drs ∧
     (read_bin_assign muSolver cur loaded).vs_dt = cur.vs_dt ∧
     (read_bin_assign muSolver cur loaded).vs_alpha = cur.vs_alpha ∧
     (read_bin_assign muSolver cur loaded).vs_err_min_iter = cur.vs_err_min_iter ∧
     (read_bin_assign muSolver cur loaded).vs_a_mix = cur.vs_a_mix ∧
     (read_bin_assign muSolver cur loaded).vs_solve_csr = cur.vs_solve_csr ∧
     (read_bin_assign muSolver cur loaded).vs_thermo_file = cur.vs_thermo_file ∧
     (read_bin_assign muSolver cur loaded).dyn_dW = cur.dyn_dW ∧
     (read_bin_assign muSolver cur loaded).dyn_Wmax = cur.dyn_Wmax ∧
     (read_bin_assign muSolver cur loaded).dyn_xtarget = cur.dyn_xtarget ∧
     (read_bin_assign muSolver cur loaded).dyn_adr_file = cur.dyn_adr_file) := by
  refine ⟨⟨rfl, rfl, rfl, rfl, rfl, rfl⟩, ?_, ?_⟩
  · intro loaded' h
    simp [read_bin_assign, h]
  · exact ⟨rfl, rfl, rfl, rfl, rfl, rfl, rfl, rfl, rfl, rfl, rfl, rfl, rfl, rfl, rfl,
      rfl, rfl, rfl, rfl, rfl, rfl, rfl, rfl, rfl, rfl, rfl, rfl, rfl, rfl, rfl⟩


lemma take_chunk {n : ℕ} (a rest : List ℝ) (ha : a.length = n) :
    (a ++ rest).take n = a ∧ (a ++ rest).drop n = rest := by
  subst ha
  exact ⟨List.take_left a rest, List.drop_left a rest⟩

lemma read_fixed_of_chunks (inp : Input) (h : FixedHeader) (a b c d : List ℝ)
    (hok : check_grid_ok h inp)
    (ha : a.length = h.nx.toNat * h.nW.toNat)
    (hb : b.length = h.nx.toNat * h.nW.toNat)
    (hc : c.length = h.nx.toNat * h.nW.toNat)
    (hd : d.length = h.nx.toNat * h.nW.toNat) :
    read_fixed_dynamic_qstls_iet inp ⟨h, a ++ b ++ c ++ d⟩ = .ok (a, b, c, d) := by
  have hassoc : a ++ b ++ c ++ d = a ++ (b ++ (c ++ d)) := by
    simp [List.append_assoc]
  set n := h.nx.toNat * h.nW.toNat with hn
  have e1 := take_chunk a (b ++ (c ++ d)) ha
  have e2 := take_chunk b (c ++ d) hb
  have e3 := take_chunk c d hc
  have e4 : d.take n = d := by rw [← hd]; exact List.take_length d
  have e5 : d.drop n = [] := by rw [← hd]; exact List.drop_length d
  simp only [read_fixed_dynamic_qstls_iet]
  rw [if_neg (not_not_intro hok)]
  simp only [hassoc, e1.1, e1.2, e2.1, e2.2, e3.1, e3.2, e4, e5]
  rw [if_neg (by rw [ha, hb, hc, hd]; omega)]
  simp

/-- C5: reading the dynamic QSTLS-IET fixed-kernel file succeeds exactly when
every header field matches the current input within its per-field tolerance
and the body holds exactly the four expected `nx·nW` arrays (full item count
and end-of-file right after the fourth array); a file written by
`write_fixed_dynamic_qstls_iet` for the same input reads back as the four
arrays exactly as written, and a `dx` differing by more than the tolerance is
the fatal incompatibility error. -/
theorem fixed_cache_roundtrip (inp : Input) (f : FixedFile) (a b c d : List ℝ)
    (ha : a.length = inp.nx.toNat * inp.nW.toNat)
    (hb : b.length = inp.nx.toNat * inp.nW.toNat)
    (hc : c.length = inp.nx.toNat * inp.nW.toNat)
    (hd : d.length = inp.nx.toNat * inp.nW.toNat) :
    read_fixed_dynamic_qstls_iet inp (write_fixed_dynamic_qstls_iet inp a b c d) =
      .ok (a, b, c, d) ∧
    ((∃ out, read_fixed_dynamic_qstls_iet inp f = .ok out) ↔
      (check_grid_ok f.header inp ∧
        f.body.length = 4 * (f.header.nx.toNat * f.header.nW.toNat))) ∧
    (DBL_TOL < |f.header.dx - inp.dx| →
      read_fixed_dynamic_qstls_iet inp f = .error .CACHE_INCOMPATIBLE) := by
  refine ⟨?_, ?_, ?_⟩
  · have hok : check_grid_ok (write_fixed_dynamic_qstls_iet inp a b c d).header inp := by
      refine ⟨rfl, ?_, ?_, rfl, ?_, ?_, ?_, ?_⟩ <;>
        · norm_num [write_fixed_dynamic_qstls_iet, DBL_TOL, sub_self, abs_zero]
    exact read_fixed_of_chunks inp _ a b c d hok ha hb hc hd
  · set n := f.header.nx.toNat * f.header.nW.toNat with hn
    constructor
    · rintro ⟨out, hout⟩
      by_cases hok : check_grid_ok f.header inp
      · refine ⟨hok, ?_⟩
        simp only [read_fixed_dynamic_qstls_iet] at hout
        rw [if_neg (not_not_intro hok)] at hout
        by_cases h1 : 8 + (f.body.take n).length + ((f.body.drop n).take n).length +
            (((f.body.drop n).drop n).take n).length +
            ((((f.body.drop n).drop n).drop n).take n).length ≠ 4 * n + 8
        · rw [if_pos h1] at hout
          exact absurd hout (by simp)
        · rw [if_neg h1] at hout
          by_cases h2 : ((((f.body.drop n).drop n).drop n).drop n) ≠ []
          · rw [if_pos h2] at hout
            exact absurd hout (by simp)
          · push_neg at h1 h2
            have hlen2 := congrArg List.length h2
            simp only [List.length_take, List.length_drop, List.length_nil] at h1 hlen2
            omega
      · rw [read_fixed_dynamic_qstls_iet, if_pos hok] at hout
        exact absurd hout (by simp)
    · rintro ⟨hok, hlen⟩
      have e4 : (((f.body.drop n).drop n).drop n).drop n = [] := by
        apply List.eq_nil_of_length_eq_zero
        simp only [List.length_drop]
        omega
      refine ⟨(f.body.take n, (f.body.drop n).take n, ((f.body.drop n).drop n).take n,
        (((f.body.drop n).drop n).drop n).take n), ?_⟩
      simp only [read_fixed_dynamic_qstls_iet]
      rw [if_neg (not_not_intro hok)]
      rw [if_neg (by simp only [List.length_take, List.length_drop]; omega)]
      rw [if_neg (not_not_intro e4)]
  · intro hdx
    rw [read_fixed_dynamic_qstls_iet, if_pos]
    intro hok
    exact absurd hok.2.1 (not_le.mpr hdx)

/-- Witness for C5: round-trip at `sampleInput` (`nx = nW = 1`) with the four
one-entry arrays `[1], [2], [3], [4]`. -/
theorem fixed_cache_roundtrip_witness :
    ([(1 : ℝ)].length = sampleInput.nx.toNat * sampleInput.nW.toNat) ∧
    read_fixed_dynamic_qstls_iet sampleInput
        (write_fixed_dynamic_qstls_iet sampleInput [1] [2] [3] [4]) =
      .ok ([1], [2], [3], [4]) :=
  ⟨rfl,
   (fixed_cache_roundtrip sampleInput
      (write_fixed_dynamic_qstls_iet sampleInput [1] [2] [3] [4])
      [1] [2] [3] [4] rfl rfl rfl rfl).1⟩

lemma foldl_updT_notmem {α : Type} (f : α → ℕ) (g : α → Cell) :
    ∀ (L : List α) (T0 : ℕ → Cell) (n : ℕ), (∀ a ∈ L, f a ≠ n) →
      (L.foldl (fun T a => updT T (f a) (g a)) T0) n = T0 n := by
  intro L
  induction L with
  | nil => intro T0 n _; rfl
  | cons b L ih =>
    intro T0 n h
    rw [List.foldl_cons, ih _ n (fun a ha => h a (List.mem_cons_of_mem b ha))]
    exact if_neg (fun hn => (h b (List.mem_cons_self b L)) hn.symm)

lemma foldl_updT_mem {α : Type} (f : α → ℕ) (g : α → Cell) :
    ∀ (L : List α) (T0 : ℕ → Cell) (n : ℕ) (a : α), a ∈ L → f a = n →
      (∀ b ∈ L, f b = n → g b = g a) →
      (L.foldl (fun T a => updT T (f a) (g a)) T0) n = g a := by
  intro L
  induction L with
  | nil => intro T0 n a ha _ _; exact absurd ha (List.not_mem_nil a)
  | cons b L ih =>
    intro T0 n a ha hfa huniq
    rw [List.foldl_cons]
    by_cases hex : ∃ c ∈ L, f c = n
    · obtain ⟨c, hcL, hfc⟩ := hex
      have hgc : g c = g a := huniq c (List.mem_cons_of_mem b hcL) hfc
      rw [← hgc]
      exact ih _ n c hcL hfc (fun b' hb' hf' => by
        rw [huniq b' (List.mem_cons_of_mem b hb') hf', hgc])
    · push_neg at hex
      rw [foldl_updT_notmem f g L _ n hex]
      have hab : a = b := by
        rcases List.mem_cons.mp ha with h | h
        · exact h
        · exact absurd hfa (hex a h)
      subst hab
      simp only [updT]
      rw [if_pos hfa.symm]

lemma mem_pdPairs {nx nW ii jj : ℕ} : (ii, jj) ∈ pdPairs nx nW ↔ ii < nx ∧ jj < nW := by
  show (ii, jj) ∈ (List.range nx) ×ˢ (List.range nW) ↔ _
  simp [List.mem_product]

lemma idx2_lt {nx nW ii jj : ℕ} (hii : ii < nx) (hjj : jj < nW) :
    idx2 ii jj nx < nx * nW := by
  rw [idx2]
  calc jj * nx + ii < jj * nx + nx := by omega
    _ = (jj + 1) * nx := by ring
    _ ≤ nW * nx := Nat.mul_le_mul_right nx hjj
    _ = nx * nW := Nat.mul_comm nW nx

lemma idx3_ge {nx nW ii jj kk : ℕ} (hkk : 0 < kk) : nx * nW ≤ idx3 ii jj kk nx nW := by
  rw [idx3]
  have h1 : nx * nW ≤ kk * (nx * nW) := Nat.le_mul_of_pos_left _ hkk
  omega

lemma idx3_zero {nx nW ii jj : ℕ} : idx3 ii jj 0 nx nW = idx2 ii jj nx := by
  simp [idx3, idx2]

lemma idx3_inj {nx nW : ℕ} {ii jj kk ii' jj' kk' : ℕ}
    (hii : ii < nx) (hjj : jj < nW) (hii' : ii' < nx) (hjj' : jj' < nW)
    (h : idx3 ii jj kk nx nW = idx3 ii' jj' kk' nx nW) :
    ii = ii' ∧ jj = jj' ∧ kk = kk' := by
  have hM : 0 < nx * nW := Nat.mul_pos (by omega) (by omega)
  have ha : jj * nx + ii < nx * nW := by
    have := idx2_lt hii hjj
    rwa [idx2] at this
  have ha' : jj' * nx + ii' < nx * nW := by
    have := idx2_lt hii' hjj'
    rwa [idx2] at this
  rw [idx3, idx3, Nat.add_assoc, Nat.add_assoc] at h
  have hmod : jj * nx + ii = jj' * nx + ii' := by
    have e1 : (kk * (nx * nW) + (jj * nx + ii)) % (nx * nW) = jj * nx + ii := by
      rw [Nat.mul_comm kk (nx * nW), Nat.mul_add_mod]
      exact Nat.mod_eq_of_lt ha
    have e2 : (kk' * (nx * nW) + (jj' * nx + ii')) % (nx * nW) = jj' * nx + ii' := by
      rw [Nat.mul_comm kk' (nx * nW), Nat.mul_add_mod]
      exact Nat.mod_eq_of_lt ha'
    rw [← e1, ← e2, h]
  have hk : kk = kk' := by
    rw [hmod] at h
    exact Nat.eq_of_mul_eq_mul_right hM (Nat.add_right_cancel h)
  have hi : ii = ii' := by
    have e1 : (jj * nx + ii) % nx = ii := by
      rw [Nat.mul_comm jj nx, Nat.mul_add_mod]
      exact Nat.mod_eq_of_lt hii
    have e2 : (jj' * nx + ii') % nx = ii' := by
      rw [Nat.mul_comm jj' nx, Nat.mul_add_mod]
      exact Nat.mod_eq_of_lt hii'
    rw [← e1, ← e2, hmod]
  have hj : jj = jj' := by
    rw [hi] at hmod
    have hnx : 0 < nx := by omega
    exact Nat.eq_of_mul_eq_mul_right hnx (Nat.add_right_cancel hmod)
  exact ⟨hi, hj, hk⟩

lemma pd_init_sentinel {nx nW ii jj : ℕ} (hii : ii < nx) (hjj : jj < nW) :
    slot_sentinel nx nW (pd_init_fixed nx nW) ii jj := by
  constructor
  · rw [idx3_zero]
    apply foldl_updT_mem (fun p => idx2 p.1 p.2 nx) (fun _ => Cell.inf)
      (pdPairs nx nW) _ _ (ii, jj)
    · exact mem_pdPairs.mpr ⟨hii, hjj⟩
    · rfl
    · intro b _ _
      rfl
  · intro kk h0 hkk
    apply foldl_updT_notmem
    rintro ⟨pi, pj⟩ hp
    obtain ⟨hpi, hpj⟩ := mem_pdPairs.mp hp
    have h1 : idx2 pi pj nx < nx * nW := idx2_lt hpi hpj
    have h2 : nx * nW ≤ idx3 ii jj kk nx nW := idx3_ge h0
    show idx2 pi pj nx ≠ idx3 ii jj kk nx nW
    omega

lemma write_slot_own {nx nW : ℕ} (var : ℕ → ℝ) {ii jj kk : ℕ}
    (hii : ii < nx) (hjj : jj < nW) (hkk : kk < nx) (T : ℕ → Cell) :
    write_dynamic_adr_iet_fixed nx nW var ii jj T (idx3 ii jj kk nx nW) =
      Cell.val (var kk) := by
  apply foldl_updT_mem (fun kk' => idx3 ii jj kk' nx nW) (fun kk' => Cell.val (var kk'))
    (List.range nx) _ _ kk
  · exact List.mem_range.mpr hkk
  · rfl
  · intro kk' _ heq
    rw [(idx3_inj hii hjj hii hjj heq).2.2]

lemma write_slot_other {nx nW : ℕ} (var : ℕ → ℝ) {pi pj ii jj kk : ℕ}
    (hpi : pi < nx) (hpj : pj < nW) (hii : ii < nx) (hjj : jj < nW) (hkk : kk < nx)
    (hne : (pi, pj) ≠ (ii, jj)) (T : ℕ → Cell) :
    write_dynamic_adr_iet_fixed nx nW var pi pj T (idx3 ii jj kk nx nW) =
      T (idx3 ii jj kk nx nW) := by
  apply foldl_updT_notmem
  intro kk' _ heq
  obtain ⟨h1, h2, _⟩ := idx3_inj hpi hpj hii hjj heq
  exact hne (by rw [h1, h2])

lemma pass_foldl_lookup (nx nW : ℕ) (vals : ℕ → ℕ → ℕ → ℝ) :
    ∀ (L : List (ℕ × ℕ)), (∀ p ∈ L, p.1 < nx ∧ p.2 < nW) →
      ∀ (T : ℕ → Cell) {ii jj kk : ℕ}, ii < nx → jj < nW → kk < nx →
      (L.foldl (fun T p => write_dynamic_adr_iet_fixed nx nW (vals p.1 p.2) p.1 p.2 T) T)
          (idx3 ii jj kk nx nW) =
        if (ii, jj) ∈ L then Cell.val (vals ii jj kk) else T (idx3 ii jj kk nx nW) := by
  intro L
  induction L with
  | nil =>
    intro _ T ii jj kk _ _ _
    simp
  | cons p L ih =>
    intro hL T ii jj kk hii hjj hkk
    rw [List.foldl_cons,
      ih (fun q hq => hL q (List.mem_cons_of_mem p hq)) _ hii hjj hkk]
    by_cases hmem : (ii, jj) ∈ L
    · rw [if_pos hmem, if_pos (List.mem_cons_of_mem p hmem)]
    · rw [if_neg hmem]
      by_cases hp : p = (ii, jj)
      · subst hp
        rw [if_pos (List.mem_cons_self _ _)]
        exact write_slot_own (vals ii jj) hii hjj hkk T
      · rw [if_neg (by
          intro hmem2
          rcases List.mem_cons.mp hmem2 with h | h
          · exact hp h.symm
          · exact hmem h)]
        exact write_slot_other (vals p.1 p.2) (hL p (List.mem_cons_self p L)).1
          (hL p (List.mem_cons_self p L)).2 hii hjj hkk
          (fun hpe => hp (by rcases p with ⟨pi, pj⟩; exact congrArg id hpe)) T

/-- C6: the fixed-kernel tensor of the partially-dynamic QSTLS-IET path
keeps every slot `(i,j,*)` in one of the claimed states: after the
initialization every slot carries the sentinel (the `idx2`-indexed writes hit
exactly the `[0]` entry of every slot); at every intermediate point of the
first pass each slot is either still sentinel-marked or fully populated; and
after the first pass every slot is fully populated. -/
theorem pd_fixed_slot_invariant (nx nW : ℕ) (vals : ℕ → ℕ → ℕ → ℝ) (ii jj : ℕ)
    (hii : ii < nx) (hjj : jj < nW) :
    slot_sentinel nx nW (pd_init_fixed nx nW) ii jj ∧
    (∀ k, slot_sentinel nx nW (pd_first_pass_upto nx nW vals k) ii jj ∨
      slot_full nx nW (pd_first_pass_upto nx nW vals k) ii jj) ∧
    slot_full nx nW (pd_first_pass nx nW vals) ii jj := by
  have hsen := pd_init_sentinel hii hjj
  have hvalid : ∀ (k : ℕ) (p : ℕ × ℕ), p ∈ (pdPairs nx nW).take k → p.1 < nx ∧ p.2 < nW := by
    intro k p hp
    rcases p with ⟨pi, pj⟩
    exact mem_pdPairs.mp (List.take_subset k (pdPairs nx nW) hp)
  refine ⟨hsen, ?_, ?_⟩
  · intro k
    by_cases hmem : (ii, jj) ∈ (pdPairs nx nW).take k
    · right
      intro kk hkk
      refine ⟨vals ii jj kk, ?_⟩
      rw [pd_first_pass_upto, pass_foldl_lookup nx nW vals _ (hvalid k) _ hii hjj hkk,
        if_pos hmem]
    · left
      constructor
      · have h0 : (0 : ℕ) < nx := by omega
        rw [pd_first_pass_upto, pass_foldl_lookup nx nW vals _ (hvalid k) _ hii hjj h0,
          if_neg hmem]
        exact hsen.1
      · intro kk hk0 hkk
        rw [pd_first_pass_upto, pass_foldl_lookup nx nW vals _ (hvalid k) _ hii hjj hkk,
          if_neg hmem]
        exact hsen.2 kk hk0 hkk
  · intro kk hkk
    refine ⟨vals ii jj kk, ?_⟩
    have hfull : (pdPairs nx nW).take (pdPairs nx nW).length = pdPairs nx nW :=
      List.take_length (pdPairs nx nW)
    rw [pd_first_pass, pd_first_pass_upto, hfull,
      pass_foldl_lookup nx nW vals _ (fun p hp => by
        rcases p with ⟨pi, pj⟩; exact mem_pdPairs.mp hp) _ hii hjj hkk,
      if_pos (mem_pdPairs.mpr ⟨hii, hjj⟩)]

/-- Witness for C6 at `nx = nW = 1`, slot `(0,0)`, with zero kernel values. -/
theorem pd_fixed_slot_invariant_witness :
    ((0 : ℕ) < 1 ∧ (0 : ℕ) < 1) ∧
    slot_full 1 1 (pd_first_pass 1 1 fun _ _ _ => 0) 0 0 :=
  ⟨⟨Nat.one_pos, Nat.one_pos⟩,
   (pd_fixed_slot_invariant 1 1 (fun _ _ _ => 0) 0 0 Nat.one_pos Nat.one_pos).2.2⟩


end Qupled
